import Mathlib

/-!
Verification development for the GSD dashboard markdown extraction engine
(`parsers.py`).  The Python parsing functions are shallowly embedded as
executable Lean functions over `List Char`.  Regular-expression matching is
embedded by hand-compiling each concrete pattern into a deterministic
scanner that mirrors Python `re` backtracking semantics (greedy / lazy
quantifiers resolved as the engine would resolve them for that pattern).
The embedding is faithful for newline-free lines, which are the only lines
the program ever feeds to the per-line parsers (all inputs go through
`str.splitlines`).  Characters are treated at the ASCII level for
case-mapping, exactly as all keywords in the source are ASCII.
-/

/-- Python `\s` / `str.strip` whitespace, ASCII range. -/
def pyIsSpace (c : Char) : Bool :=
  c = ' ' || c = '\t' || c = '\n' || c = '\r' || c = '\x0b' || c = '\x0c'

/-- ASCII decimal digit test, Python `\d` for ASCII. -/
def isDigitCh (c : Char) : Bool :=
  '0' ≤ c && c ≤ '9'

/-- The character class `[\d\.]` used for phase / version numbers. -/
def isNumDot (c : Char) : Bool :=
  isDigitCh c || c = '.'

/-- Python `str.lower` restricted to ASCII letters. -/
def toLowerCh (c : Char) : Char :=
  if 'A' ≤ c && c ≤ 'Z' then Char.ofNat (c.toNat + 32) else c

/-- Lowercase an entire string (as a character list). -/
def lowerL (l : List Char) : List Char :=
  l.map toLowerCh

/-- Python `str.lstrip()`. -/
def lstrip (l : List Char) : List Char :=
  l.dropWhile pyIsSpace

/-- Python `str.rstrip()`. -/
def rstrip (l : List Char) : List Char :=
  (l.reverse.dropWhile pyIsSpace).reverse

/-- Python `str.strip()`. -/
def strip (l : List Char) : List Char :=
  rstrip (lstrip l)

/-- Boolean membership of a character in a character list. -/
def hasChar (c : Char) : List Char → Bool
  | [] => false
  | a :: r => a = c || hasChar c r

/-- Python `str.startswith`: `startsWithL s l` means `s` is a leading
segment of `l`. -/
def startsWithL : List Char → List Char → Bool
  | [], _ => true
  | _ :: _, [] => false
  | a :: s, b :: l => a = b && startsWithL s l

/-- Python substring containment `s in l`. -/
def containsSub (s : List Char) : List Char → Bool
  | [] => startsWithL s []
  | l@(_ :: t) => startsWithL s l || containsSub s t

/-- Numeric value of a digit string, Python `int(...)` on a `\d+` capture. -/
def digitsVal (ds : List Char) : Nat :=
  ds.foldl (fun a c => a * 10 + (c.toNat - 48)) 0

/-- Line-terminator normalization: `\r\n` and bare `\r` become `\n`, so
that `str.splitlines` (for the terminators occurring in these documents)
is splitting on `\n`. -/
def normEOL : List Char → List Char
  | [] => []
  | '\r' :: '\n' :: rest => '\n' :: normEOL rest
  | '\r' :: rest => '\n' :: normEOL rest
  | c :: rest => c :: normEOL rest

/-- `str.splitlines` worker on normalized text. -/
def splitlinesGo : List Char → List Char → List (List Char)
  | acc, [] => [acc.reverse]
  | acc, c :: rest =>
    if c = '\n' then
      acc.reverse :: (if rest.isEmpty then [] else splitlinesGo [] rest)
    else splitlinesGo (c :: acc) rest

/-- Python `str.splitlines` (for `\n` / `\r\n` / `\r` terminators). -/
def splitlines (l : List Char) : List (List Char) :=
  if l.isEmpty then [] else splitlinesGo [] (normEOL l)

/-- Join lines with `'\n'`, the inverse of `splitlines` on clean lines. -/
def joinNL : List (List Char) → List Char
  | [] => []
  | [l] => l
  | l :: ls => l ++ '\n' :: joinNL ls

/-- Status enumeration used by the parser records. -/
inductive Status where
  | pending
  | in_progress
  | completed
  | shipped
deriving DecidableEq, Repr

/-- A roadmap phase record as produced by `parse_roadmap`. -/
structure Phase where
  name : List Char
  description : List Char
  status : Status
  version : Option (List Char) := none
  phases : Option (List Char) := none
deriving DecidableEq, Repr

/-- A todo record (`{"text": ..., "checked": ...}`). -/
structure Todo where
  text : List Char
  checked : Bool
deriving DecidableEq, Repr

/-- A concern record (`{"text": ...}`). -/
structure Concern where
  text : List Char
deriving DecidableEq, Repr

/-- Checkbox status-char mapping from `_parse_checkbox_phase`
(`status_map.get(status_char, "pending")`). -/
def statusOfChar (c : Char) : Status :=
  if c = 'x' || c = 'X' then Status.completed
  else if c = '/' then Status.in_progress
  else Status.pending

def phaseWord : List Char := "Phase".toList

/-- Tail matcher for the checkbox regex: matches
`\*\*(?:\s*-\s*(?P<desc>.*))?$` at the start of `v`, returning the raw
`desc` capture (empty when the optional group is absent). -/
def checkboxTail (v : List Char) : Option (List Char) :=
  match v with
  | c1 :: c2 :: r =>
    if c1 = '*' ∧ c2 = '*' then
      let r1 := r.dropWhile pyIsSpace
      if r1.head? = some '-' then
        let d := r1.tail.dropWhile pyIsSpace
        if hasChar '\n' d then none else some d
      else if r.isEmpty then some [] else none
    else none
  | _ => none

/-- Lazy scan for the `.*?` of the checkbox `name` group: stop at the first
position where the rest of the pattern (`checkboxTail`) matches; a `.`
never crosses `'\n'`. -/
def checkboxScan (acc : List Char) : List Char → Option (List Char × List Char)
  | [] => none
  | c :: rest =>
    match checkboxTail (c :: rest) with
    | some d => some (acc.reverse, d)
    | none => if c = '\n' then none else checkboxScan (c :: acc) rest

/-- Stage of `_parse_checkbox_phase` after the literal `Phase`:
`\s+[\d\.]+:` then the lazy name and tail. -/
def checkboxColon (c : Char) (ws num : List Char) : List Char → Option Phase
  | ':' :: r6 =>
    match checkboxScan [] r6 with
    | some (nm, d) =>
      some { name := phaseWord ++ ws ++ num ++ ':' :: nm,
             description := strip d,
             status := statusOfChar c }
    | none => none
  | _ => none

/-- Stage of `_parse_checkbox_phase` parsing `\s+` and `[\d\.]+`. -/
def checkboxNum (c : Char) (r3 : List Char) : Option Phase :=
  let ws := r3.takeWhile pyIsSpace
  let r4 := r3.dropWhile pyIsSpace
  let num := r4.takeWhile isNumDot
  let r5 := r4.dropWhile isNumDot
  if ws.isEmpty || num.isEmpty then none else checkboxColon c ws num r5

/-- Stage of `_parse_checkbox_phase` after `- [c]`: `\s*\*\*Phase`. -/
def checkboxAfterBracket (c : Char) : List Char → Option Phase
  | '*' :: '*' :: 'P' :: 'h' :: 'a' :: 's' :: 'e' :: r3 => checkboxNum c r3
  | _ => none

/-- `_parse_checkbox_phase` body applied to the stripped line: the regex
`- \[(?P<status>.)\]\s*\*\*(?P<name>Phase\s+[\d\.]+:.*?)\*\*(?:\s*-\s*(?P<desc>.*))?$`. -/
def parse_checkbox_core : List Char → Option Phase
  | '-' :: ' ' :: '[' :: c :: ']' :: r =>
    if c = '\n' then none else checkboxAfterBracket c (r.dropWhile pyIsSpace)
  | _ => none

/-- `GSDParser._parse_checkbox_phase`. -/
def parse_checkbox_phase (line : List Char) : Option Phase :=
  parse_checkbox_core (strip line)

def completeWord : List Char := "complete".toList
def shippedWord : List Char := "shipped".toList
def progressWord : List Char := "progress".toList
def activeWord : List Char := "active".toList
def phaseLower : List Char := "phase".toList
def phaseSpace : List Char := "Phase ".toList

/-- Completed-keyword test for one table cell: `"complete" in part_lower or
"shipped" in part_lower or "✓" in part`. -/
def kwComplete (p : List Char) : Bool :=
  containsSub completeWord (lowerL p) || containsSub shippedWord (lowerL p) ||
    containsSub ['✓'] p

/-- Progress-keyword test for one table cell: `"progress" in part_lower or
"active" in part_lower`. -/
def kwProgress (p : List Char) : Bool :=
  containsSub progressWord (lowerL p) || containsSub activeWord (lowerL p)

/-- The status loop of `_parse_table_phase`: scan the non-first cells in
order and `break` at the first cell matching either keyword set. -/
def tableStatus : List (List Char) → Status
  | [] => Status.pending
  | p :: rest =>
    if kwComplete p then Status.completed
    else if kwProgress p then Status.in_progress
    else tableStatus rest

/-- Second first-cell pattern of `_parse_table_phase`: `(\d+)\.\s*(.*)`,
returning the number and raw title captures. -/
def tableAlt2 (num r : List Char) : Option (List Char × List Char) :=
  if r.head? = some '.' then
    some (num, (r.tail.dropWhile pyIsSpace).takeWhile (fun c => c ≠ '\n'))
  else none

/-- Dash characters accepted between phase number and title:
`[-–—]`. -/
def dashChar (c : Char) : Bool :=
  c = '-' || c = '–' || c = '—'

/-- First-cell parsing of `_parse_table_phase`: try
`(\d+)[\.\s]*[-–—]\s*(.*)` and fall back to `(\d+)\.\s*(.*)`. -/
def tablePhaseName (p0 : List Char) : Option (List Char × List Char) :=
  let num := p0.takeWhile isDigitCh
  if num.isEmpty then none
  else
    let r := p0.dropWhile isDigitCh
    let r1 := r.dropWhile (fun c => c = '.' || pyIsSpace c)
    match r1.head? with
    | some c =>
      if dashChar c then
        some (num, (r1.tail.dropWhile pyIsSpace).takeWhile (fun c => c ≠ '\n'))
      else tableAlt2 num r
    | none => tableAlt2 num r

/-- The cell list of `_parse_table_phase`:
`[p.strip() for p in stripped.split("|") if p.strip()]`. -/
def tableCells (line : List Char) : List (List Char) :=
  (((strip line).splitOn '|').map strip).filter (fun p => !p.isEmpty)

/-- `GSDParser._parse_table_phase`. -/
def parse_table_phase (line : List Char) : Option Phase :=
  if (strip line).head? = some '|' then
    let parts := tableCells line
    if parts.length < 3 then none
    else
      match parts with
      | [] => none
      | p0 :: rest =>
        if containsSub phaseLower (lowerL p0) || startsWithL ['-'] p0 then none
        else
          match tablePhaseName p0 with
          | none => none
          | some (num, title) =>
            some { name := phaseSpace ++ num ++ ':' :: ' ' :: strip title,
                   description := [],
                   status := tableStatus rest }
  else none

/-- Character class `[\d\-,\s]` for the shipped-line phase-range capture. -/
def shippedClassCh (c : Char) : Bool :=
  isDigitCh c || c = '-' || c = ',' || pyIsSpace c

/-- The `\s*(?P<phases>[\d\-,\s]+)` tail of the shipped-line regex with its
backtracking behaviour: the greedy `\s*` yields at most one character back
to the mandatory class when nothing else follows. -/
def shippedNum (z : List Char) : Option (List Char) :=
  let ws := z.takeWhile pyIsSpace
  let r := z.dropWhile pyIsSpace
  let run := r.takeWhile shippedClassCh
  if !run.isEmpty then some run
  else
    match ws.reverse.head? with
    | some w => some [w]
    | none => none

/-- Tail matcher for the shipped regex:
`\*\*\s*[—\-]\s*Phases?\s*(?P<phases>[\d\-,\s]+)` at the start of `v`. -/
def shippedTail (v : List Char) : Option (List Char) :=
  match v with
  | c1 :: c2 :: r =>
    if c1 = '*' ∧ c2 = '*' then
      let r1 := r.dropWhile pyIsSpace
      match r1.head? with
      | some d =>
        if d = '—' ∨ d = '-' then
          let r2 := r1.tail.dropWhile pyIsSpace
          if startsWithL phaseWord r2 then
            let r3 := r2.drop 5
            match (match r3.head? with
                   | some 's' => shippedNum r3.tail
                   | _ => none) with
            | some cap => some cap
            | none => shippedNum r3
          else none
        else none
      | none => none
    else none
  | _ => none

/-- Lazy scan for the `.*?` of the shipped `name` group. -/
def shippedScan (acc v : List Char) : Option (List Char × List Char) :=
  match shippedTail v with
  | some cap => some (acc.reverse, cap)
  | none =>
    match v with
    | [] => none
    | c :: rest => if c = '\n' then none else shippedScan (c :: acc) rest

def phasesLabel : List Char := "Phases ".toList

/-- `GSDParser._parse_shipped_line`: the regex
`- SHIPPED\s+\*\*(?P<version>v[\d\.]+)\s+(?P<name>.*?)\*\*\s*[—\-]\s*Phases?\s*(?P<phases>[\d\-,\s]+)`. -/
def parse_shipped_line (line : List Char) : Option Phase :=
  match strip line with
  | '-' :: ' ' :: 'S' :: 'H' :: 'I' :: 'P' :: 'P' :: 'E' :: 'D' :: r =>
    if (r.takeWhile pyIsSpace).isEmpty then none
    else
      match r.dropWhile pyIsSpace with
      | '*' :: '*' :: 'v' :: r2 =>
        let ver := r2.takeWhile isNumDot
        if ver.isEmpty then none
        else
          let r3 := r2.dropWhile isNumDot
          if (r3.takeWhile pyIsSpace).isEmpty then none
          else
            match shippedScan [] (r3.dropWhile pyIsSpace) with
            | some (nm, cap) =>
              some { name := 'v' :: ver ++ ' ' :: strip nm,
                     description := phasesLabel ++ strip cap,
                     status := Status.shipped,
                     version := some ('v' :: ver),
                     phases := some (strip cap) }
            | none => none
      | _ => none
  | _ => none

/-- Roadmap record (`{"phases": [...]}`). -/
structure RoadmapData where
  phases : List Phase
deriving DecidableEq, Repr

/-- Per-line grammar dispatch of `parse_roadmap`: checkbox first, then
shipped, then table. -/
def roadmapLine (line : List Char) : Option Phase :=
  match parse_checkbox_phase (strip line) with
  | some p => some p
  | none =>
    match parse_shipped_line (strip line) with
    | some p => some p
    | none => parse_table_phase (strip line)

/-- `GSDParser.parse_roadmap` applied to the text of `ROADMAP.md`. -/
def parse_roadmap_content (content : List Char) : List Phase :=
  (splitlines content).filterMap roadmapLine

/-- `GSDParser.parse_roadmap`; `none` models a missing `ROADMAP.md`. -/
def parse_roadmap : Option (List Char) → RoadmapData
  | none => ⟨[]⟩
  | some c => ⟨parse_roadmap_content c⟩

/-- The loop of `infer_active_phase_from_roadmap`: first phase whose status
is not `"completed"`. -/
def inferLoop : List Phase → Option Phase
  | [] => none
  | p :: rest => if p.status ≠ Status.completed then some p else inferLoop rest

/-- `GSDParser.infer_active_phase_from_roadmap`. -/
def infer_active_phase_from_roadmap (roadmapFile : Option (List Char)) : Option Phase :=
  inferLoop (parse_roadmap roadmapFile).phases

/-- Generic `re.search`: try a match at every start position, leftmost
success wins. -/
def searchF {α : Type} (f : List Char → Option α) : List Char → Option α
  | [] => f []
  | l@(_ :: t) =>
    match f l with
    | some a => some a
    | none => searchF f t

/-- Boolean `re.search` for patterns without captures. -/
def searchB (f : List Char → Bool) : List Char → Bool
  | [] => f []
  | l@(_ :: t) => f l || searchB f t

def progressLabel : List Char := "Progress:".toList

/-- Tail of progress format 1 after `Progress:\s*\[`: the rest
`\]\s*(\d+)%` tried at one position of the lazy `.*?`. -/
def pf1Tail (v : List Char) : Option Nat :=
  match v with
  | ']' :: r =>
    let r1 := r.dropWhile pyIsSpace
    let ds := r1.takeWhile isDigitCh
    if ds.isEmpty then none
    else if (r1.dropWhile isDigitCh).head? = some '%' then some (digitsVal ds)
    else none
  | _ => none

/-- Lazy `.*?` scan of progress format 1. -/
def pf1Lazy (v : List Char) : Option Nat :=
  match pf1Tail v with
  | some n => some n
  | none =>
    match v with
    | [] => none
    | c :: rest => if c = '\n' then none else pf1Lazy rest

/-- Progress format 1 at one search position:
`Progress:\s*\[.*?\]\s*(\d+)%`. -/
def pf1At (l : List Char) : Option Nat :=
  if startsWithL progressLabel l then
    match (l.drop 9).dropWhile pyIsSpace with
    | '[' :: r2 => pf1Lazy r2
    | _ => none
  else none

/-- Character class `[\w\s]` (ASCII word characters and whitespace). -/
def wordOrWs (c : Char) : Bool :=
  pyIsSpace c || isDigitCh c || ('a' ≤ c && c ≤ 'z') || ('A' ≤ c && c ≤ 'Z') || c = '_'

/-- Scan of `[\w\s]+?\)` after its first mandatory character. -/
def pf2CloseAux : List Char → Bool
  | [] => false
  | c :: rest => if c = ')' then true else if wordOrWs c then pf2CloseAux rest else false

/-- `[\w\s]+?\)`: at least one word/space character, then a closing
parenthesis. -/
def pf2Close : List Char → Bool
  | [] => false
  | c :: rest => wordOrWs c && pf2CloseAux rest

/-- Progress format 2 at one search position:
`(\d+)%\s*\(\d+/\d+\s+[\w\s]+?\)`. -/
def pf2At (l : List Char) : Option Nat :=
  let ds := l.takeWhile isDigitCh
  if ds.isEmpty then none
  else
    match l.dropWhile isDigitCh with
    | '%' :: r =>
      match r.dropWhile pyIsSpace with
      | '(' :: r2 =>
        let d1 := r2.takeWhile isDigitCh
        if d1.isEmpty then none
        else
          match r2.dropWhile isDigitCh with
          | '/' :: r3 =>
            let d2 := r3.takeWhile isDigitCh
            if d2.isEmpty then none
            else
              match r3.dropWhile isDigitCh with
              | c :: rest =>
                if pyIsSpace c && pf2Close rest then some (digitsVal ds) else none
              | [] => none
          | _ => none
      | _ => none
    | _ => none

/-- Tail of progress format 3: `(\d+)%` tried at one position of the lazy
`.*?`. -/
def pf3Tail (v : List Char) : Option Nat :=
  let ds := v.takeWhile isDigitCh
  if ds.isEmpty then none
  else if (v.dropWhile isDigitCh).head? = some '%' then some (digitsVal ds)
  else none

/-- Lazy `.*?` scan of progress format 3. -/
def pf3Lazy (v : List Char) : Option Nat :=
  match pf3Tail v with
  | some n => some n
  | none =>
    match v with
    | [] => none
    | c :: rest => if c = '\n' then none else pf3Lazy rest

/-- Progress format 3 at one search position: `Progress:.*?(\d+)%`. -/
def pf3At (l : List Char) : Option Nat :=
  if startsWithL progressLabel l then pf3Lazy (l.drop 9) else none

/-- Progress-bar characters `[█░▒▓█░▓▒ ]`. -/
def barChar (c : Char) : Bool :=
  c = '█' || c = '░' || c = '▒' || c = '▓' || c = ' '

/-- Progress format 4 at one search position:
`\[[█░▒▓█░▓▒ ]+\]\s*(\d+)%`. -/
def pf4At (l : List Char) : Option Nat :=
  match l with
  | '[' :: r =>
    let run := r.takeWhile barChar
    if run.isEmpty then none
    else
      match r.dropWhile barChar with
      | ']' :: r2 =>
        let r3 := r2.dropWhile pyIsSpace
        let ds := r3.takeWhile isDigitCh
        if ds.isEmpty then none
        else if (r3.dropWhile isDigitCh).head? = some '%' then some (digitsVal ds)
        else none
      | _ => none
  | _ => none

/-- `GSDParser._parse_progress`: the four formats tried in order, default 0. -/
def parse_progress (content : List Char) : Int :=
  match searchF pf1At content with
  | some n => (n : Int)
  | none =>
    match searchF pf2At content with
    | some n => (n : Int)
    | none =>
      match searchF pf3At content with
      | some n => (n : Int)
      | none =>
        match searchF pf4At content with
        | some n => (n : Int)
        | none => 0

/-- The state record built by `parse_state` (a Python dict: `none` models
an absent key). -/
structure StateData where
  current_phase : Option (List Char) := none
  phase_number : Option Int := none
  total_phases : Option Int := none
  phase_name : Option (List Char) := none
  milestone_version : Option (List Char) := none
  phases_shipped : Option Int := none
  milestone_complete : Option Bool := none
  phase_status : Option (List Char) := none
  progress_percent : Option Int := none
  last_activity : Option (List Char) := none
  avg_duration : Option (List Char) := none
  state_todos : Option (List Todo) := none
  concerns : Option (List Concern) := none
deriving DecidableEq, Repr

/-- `re.sub` of the literal `**Phase:**` with `Phase:` (left-to-right,
non-overlapping). -/
def normalizeBoldPhase : List Char → List Char
  | '*' :: '*' :: 'P' :: 'h' :: 'a' :: 's' :: 'e' :: ':' :: '*' :: '*' :: rest =>
    'P' :: 'h' :: 'a' :: 's' :: 'e' :: ':' :: normalizeBoldPhase rest
  | c :: rest => c :: normalizeBoldPhase rest
  | [] => []

def phaseColon : List Char := "Phase:".toList
def ofWord : List Char := "of".toList
def completeLower : List Char := "complete".toList
def shippedLower : List Char := "shipped".toList
def notWordCI : List Char := "not".toList
def startedWordCI : List Char := "started".toList

/-- State-phase format 1 at one search position:
`Phase:\s*(\d+)\s+of\s+(\d+)\s*\(([^)]+)\)`, returning the three raw
captures. -/
def spf1At (l : List Char) : Option (List Char × List Char × List Char) :=
  if startsWithL phaseColon l then
    let r := (l.drop 6).dropWhile pyIsSpace
    let g1 := r.takeWhile isDigitCh
    if g1.isEmpty then none
    else
      let r2 := r.dropWhile isDigitCh
      if (r2.takeWhile pyIsSpace).isEmpty then none
      else
        let r3 := r2.dropWhile pyIsSpace
        if startsWithL ofWord r3 then
          let r4 := r3.drop 2
          if (r4.takeWhile pyIsSpace).isEmpty then none
          else
            let r5 := r4.dropWhile pyIsSpace
            let g2 := r5.takeWhile isDigitCh
            if g2.isEmpty then none
            else
              let r6 := (r5.dropWhile isDigitCh).dropWhile pyIsSpace
              match r6.head? with
              | some '(' =>
                let g3 := r6.tail.takeWhile (fun c => c ≠ ')')
                if g3.isEmpty then none
                else if (r6.tail.dropWhile (fun c => c ≠ ')')).head? = some ')' then
                  some (g1, g2, g3)
                else none
              | _ => none
        else none
  else none

/-- The `\s+phases?\s+shipped` tail of state-phase format 2 after the raw
word `phase` (greedy optional `s`). -/
def spf2ShippedTail (r10 : List Char) : Bool :=
  let tryRest := fun (z : List Char) =>
    !(z.takeWhile pyIsSpace).isEmpty && startsWithL shippedLower (z.dropWhile pyIsSpace)
  if r10.head? = some 's' && tryRest r10.tail then true else tryRest r10

/-- State-phase format 2 at one search position:
`Phase:\s*(v[\d\.]+)\s+complete\s*[—\-]\s*(\d+)\s+of\s+(\d+)\s+phases?\s+shipped`. -/
def spf2At (l : List Char) : Option (List Char × List Char × List Char) :=
  if startsWithL phaseColon l then
    let r := (l.drop 6).dropWhile pyIsSpace
    match r.head? with
    | some 'v' =>
      let ver := r.tail.takeWhile isNumDot
      if ver.isEmpty then none
      else
        let r2 := r.tail.dropWhile isNumDot
        if (r2.takeWhile pyIsSpace).isEmpty then none
        else
          let r3 := r2.dropWhile pyIsSpace
          if startsWithL completeLower r3 then
            let r4 := (r3.drop 8).dropWhile pyIsSpace
            match r4.head? with
            | some d =>
              if d = '—' ∨ d = '-' then
                let r5 := r4.tail.dropWhile pyIsSpace
                let g2 := r5.takeWhile isDigitCh
                if g2.isEmpty then none
                else
                  let r6 := r5.dropWhile isDigitCh
                  if (r6.takeWhile pyIsSpace).isEmpty then none
                  else
                    let r7 := r6.dropWhile pyIsSpace
                    if startsWithL ofWord r7 then
                      let r8 := r7.drop 2
                      if (r8.takeWhile pyIsSpace).isEmpty then none
                      else
                        let r9 := r8.dropWhile pyIsSpace
                        let g3 := r9.takeWhile isDigitCh
                        if g3.isEmpty then none
                        else
                          let r10 := r9.dropWhile isDigitCh
                          if (r10.takeWhile pyIsSpace).isEmpty then none
                          else
                            let r11 := r10.dropWhile pyIsSpace
                            if startsWithL phaseLower r11 then
                              if spf2ShippedTail (r11.drop 5) then some ('v' :: ver, g2, g3)
                              else none
                            else none
                    else none
              else none
            | none => none
          else none
    | _ => none
  else none

/-- Case-insensitive `str.startswith` (ASCII), for the `re.IGNORECASE`
format 3. -/
def startsWithCI : List Char → List Char → Bool
  | [], _ => true
  | _ :: _, [] => false
  | a :: s, b :: l => toLowerCh a = toLowerCh b && startsWithCI s l

/-- State-phase format 3 at one search position:
`Phase:\s*Not\s+started` with `re.IGNORECASE`. -/
def spf3At (l : List Char) : Bool :=
  startsWithCI phaseColon l &&
    (let r := (l.drop 6).dropWhile pyIsSpace
     startsWithCI notWordCI r &&
       (let r2 := r.drop 3
        !(r2.takeWhile pyIsSpace).isEmpty &&
          startsWithCI startedWordCI (r2.dropWhile pyIsSpace)))

/-- The `\s*(.+?)(?:\n|$)` capture with its backtracking behaviour: after
the maximal whitespace run the lazy group takes everything up to the next
newline; when only whitespace remains, the greedy `\s*` yields back a
single non-newline whitespace character if one exists. -/
def dotPlusCapture (r : List Char) : Option (List Char) :=
  let r1 := r.dropWhile pyIsSpace
  if !r1.isEmpty then some (r1.takeWhile (fun c => c ≠ '\n'))
  else
    match r.reverse.find? (fun c => c ≠ '\n') with
    | some c => some [c]
    | none => none

/-- State-phase format 4 at one search position:
`Phase:\s*(\d+)\s*[-–—]\s*(.+?)(?:\n|$)`. -/
def spf4At (l : List Char) : Option (List Char × List Char) :=
  if startsWithL phaseColon l then
    let r := (l.drop 6).dropWhile pyIsSpace
    let g1 := r.takeWhile isDigitCh
    if g1.isEmpty then none
    else
      let r2 := (r.dropWhile isDigitCh).dropWhile pyIsSpace
      match r2.head? with
      | some c =>
        if dashChar c then
          match dotPlusCapture r2.tail with
          | some g2 => some (g1, g2)
          | none => none
        else none
      | none => none
  else none

/-- State-phase format 5 (generic fallback) at one search position:
`Phase:\s*(.+?)(?:\n|$)`. -/
def spf5At (l : List Char) : Option (List Char) :=
  if startsWithL phaseColon l then dotPlusCapture (l.drop 6) else none

def ofSep : List Char := " of ".toList
def openParen : List Char := " (".toList
def completeSuffix : List Char := " complete".toList
def notStartedText : List Char := "Not started".toList
def notStartedTag : List Char := "not_started".toList

/-- `GSDParser._parse_state_phase`: the five formats tried in order on the
bold-normalized content, first match wins. -/
def parse_state_phase (content : List Char) : StateData :=
  let n := normalizeBoldPhase content
  match searchF spf1At n with
  | some (g1, g2, g3) =>
    { phase_number := some (digitsVal g1 : Int),
      total_phases := some (digitsVal g2 : Int),
      phase_name := some g3,
      current_phase := some (g1 ++ ofSep ++ g2 ++ openParen ++ g3 ++ [')']) }
  | none =>
    match searchF spf2At n with
    | some (ver, g2, g3) =>
      { milestone_version := some ver,
        phases_shipped := some (digitsVal g2 : Int),
        total_phases := some (digitsVal g3 : Int),
        current_phase := some (ver ++ completeSuffix),
        milestone_complete := some true }
    | none =>
      if searchB spf3At n then
        { current_phase := some notStartedText, phase_status := some notStartedTag }
      else
        match searchF spf4At n with
        | some (g1, g2) =>
          { phase_number := some (digitsVal g1 : Int),
            phase_name := some (strip g2),
            current_phase := some (g1 ++ openParen ++ strip g2 ++ [')']) }
        | none =>
          match searchF spf5At n with
          | some g => { current_phase := some (strip g) }
          | none => {}

def pendingHeader : List Char := "### Pending Todos".toList
def headingMark : List Char := "### ".toList
def todoMark : List Char := "- [ ] ".toList

/-- The line loop of `_parse_state_todos`. -/
def todosGo : Bool → List (List Char) → List Todo
  | _, [] => []
  | inSec, l :: rest =>
    let s := strip l
    if s = pendingHeader then todosGo true rest
    else if inSec && startsWithL headingMark s then []
    else if inSec && startsWithL todoMark s then
      (let t := strip (s.drop 6)
       if t.isEmpty then todosGo inSec rest else ⟨t, false⟩ :: todosGo inSec rest)
    else todosGo inSec rest

/-- `GSDParser._parse_state_todos`. -/
def parse_state_todos (content : List Char) : List Todo :=
  todosGo false (splitlines content)

def concernsHeader : List Char := "### Blockers/Concerns".toList
def dashMark : List Char := "- ".toList
def noneSentinel : List Char := "none.".toList

/-- The line loop of `_parse_state_concerns`. -/
def concernsGo : Bool → List (List Char) → List Concern
  | _, [] => []
  | inSec, l :: rest =>
    let s := strip l
    if s = concernsHeader then concernsGo true rest
    else if inSec && startsWithL headingMark s then []
    else if inSec && startsWithL dashMark s then
      (let t := strip (s.drop 2)
       if !t.isEmpty && lowerL t ≠ noneSentinel then ⟨t⟩ :: concernsGo inSec rest
       else concernsGo inSec rest)
    else concernsGo inSec rest

/-- `GSDParser._parse_state_concerns`. -/
def parse_state_concerns (content : List Char) : List Concern :=
  concernsGo false (splitlines content)

def lastActivityLabel : List Char := "Last activity:".toList
def avgDurationLabel : List Char := "Average duration:".toList
def statusLabel : List Char := "Status:".toList

/-- `re.search(label + r"\s*(.*)")` returning the raw capture. -/
def lineCapture (label : List Char) (content : List Char) : Option (List Char) :=
  searchF
    (fun l =>
      if startsWithL label l then
        some (((l.drop label.length).dropWhile pyIsSpace).takeWhile (fun c => c ≠ '\n'))
      else none)
    content

/-- `GSDParser.parse_state`; `none` models a missing `STATE.md`. -/
def parse_state : Option (List Char) → StateData
  | none => {}
  | some content =>
    let base := parse_state_phase content
    { base with
      progress_percent := some (parse_progress content),
      last_activity :=
        match lineCapture lastActivityLabel content with
        | some g => some (strip g)
        | none => base.last_activity,
      avg_duration :=
        match lineCapture avgDurationLabel content with
        | some g => some (strip g)
        | none => base.avg_duration,
      phase_status :=
        match lineCapture statusLabel content with
        | some g => if base.phase_status = none then some (strip g) else base.phase_status
        | none => base.phase_status,
      state_todos := some (parse_state_todos content),
      concerns := some (parse_state_concerns content) }

/-- Project record (`{"active_tasks": [...]}`). -/
structure ProjectData where
  active_tasks : List Todo
deriving DecidableEq, Repr

def activeHeader : List Char := "### Active".toList
def taskMark : List Char := "- [".toList
def checkedMark : List Char := "- [x]".toList

/-- The section state machine of `parse_project`. -/
def projGo : Bool → List (List Char) → List Todo
  | _, [] => []
  | inAct, l :: rest =>
    let s := strip l
    if startsWithL activeHeader s then projGo true rest
    else if startsWithL headingMark s && inAct then []
    else if inAct && startsWithL taskMark s then
      ⟨strip (s.drop 5), startsWithL checkedMark s⟩ :: projGo inAct rest
    else projGo inAct rest

/-- `GSDParser.parse_project` applied to the text of `PROJECT.md`. -/
def parse_project_content (content : List Char) : List Todo :=
  projGo false (splitlines content)

/-- `GSDParser.parse_project`; `none` models a missing `PROJECT.md`. -/
def parse_project : Option (List Char) → ProjectData
  | none => ⟨[]⟩
  | some c => ⟨parse_project_content c⟩

/-- The merge loop of `parse_pending_todos` (lines 496-502): append a
state-sourced todo only if its lowercased text is not in the seen set. -/
def mergeGo (acc : List Todo) (seen : List (List Char)) : List Todo → List Todo
  | [] => acc
  | t :: rest =>
    if seen.contains (lowerL t.text) then mergeGo acc seen rest
    else mergeGo (acc ++ [t]) (seen ++ [lowerL t.text]) rest

/-- The file/state todo merge of `parse_pending_todos`: the seen set starts
as the lowercased texts of the file-sourced todos. -/
def merge_pending_todos (fileTodos stateTodos : List Todo) : List Todo :=
  mergeGo fileTodos (fileTodos.map (fun t => lowerL t.text)) stateTodos

/-- `GSDParser.parse_pending_todos` with the directory-derived todos as an
explicit input (directory listing is I/O): merges them with the todos
extracted from `STATE.md`. -/
def parse_pending_todos (fileTodos : List Todo) (stateFile : Option (List Char)) : List Todo :=
  merge_pending_todos fileTodos ((parse_state stateFile).state_todos.getD [])

/-- The phase-number extraction applied to phase names elsewhere in the
program: `re.search(r"Phase (\d+)", name)` at one position. -/
def extractPhaseAt (l : List Char) : Option Nat :=
  if startsWithL phaseSpace l then
    let ds := (l.drop 6).takeWhile isDigitCh
    if ds.isEmpty then none else some (digitsVal ds)
  else none

/-- `re.search(r"Phase (\d+)", name)` (used on phase names in
`get_phase_directory`). -/
def extract_phase_num (name : List Char) : Option Nat :=
  searchF extractPhaseAt name

/-! Concrete documents and records used to instantiate the theorems. -/

def starStar : List Char := "**".toList
def cbPre : List Char := "- [".toList
def cbMid : List Char := "] **Phase ".toList
def colonSpace : List Char := ": ".toList
def cbEnd : List Char := "** - ".toList

def c1CexLine : List Char := "| 1. A | active | complete |".toList
def c1CexName : List Char := "Phase 1: A".toList
def c1WLine : List Char := "| 2. Core | v2.0 | 0/3 | In Progress |".toList
def c1WPhase : Phase :=
  { name := "Phase 2: Core".toList, description := [], status := Status.in_progress }

def c2CexContent : List Char := "Progress: [█] 150%".toList
def c2WContent : List Char := "Nothing to see here".toList

def c3N : List Char := "1".toList
def c3T : List Char := "Setup".toList
def c3D : List Char := "Initial setup".toList

def c4CexLine : List Char := "- [x] **Phase .: T**".toList
def c4CexName : List Char := "Phase .: T".toList
def c4WLine : List Char := "| 3. Polish | v1.0 | 0/2 | Not started |".toList
def c4WPhase : Phase :=
  { name := "Phase 3: Polish".toList, description := [], status := Status.pending }

def c5Content : List Char := "- [x] **Phase 1: A** - x\n- [ ] **Phase 2: B**".toList
def c5Phase1 : Phase :=
  { name := "Phase 1: A".toList, description := "x".toList, status := Status.completed }
def c5Phase2 : Phase :=
  { name := "Phase 2: B".toList, description := [], status := Status.pending }

def c6CexContent : List Char := "### Pending Todos\n- [ ] a\n## Other\n- [ ] b".toList
def c6TodoA : Todo := ⟨"a".toList, false⟩
def c6TodoB : Todo := ⟨"b".toList, false⟩
def c6EndLine : List Char := "### End".toList
def c6L1 : List Char := "- [ ] a".toList
def c6L2 : List Char := "## Other".toList
def c6L3 : List Char := "- [ ] b".toList

def c7In1 : List Char := "Progress: [████░░░░] 40%".toList
def c7In2 : List Char := "62% (5/8 requirements)".toList
def c7In3 : List Char := "[██░░] 25%".toList
def c7In4 : List Char := "No percentage information appears on any line".toList

def c8File : List Todo := [⟨"Fix Login".toList, false⟩]
def c8State : List Todo := [⟨"fix login".toList, false⟩]
def c8SEl : Todo := ⟨"fix login".toList, false⟩

def c10T : List Char := "Fix login".toList
def c10XMark : List Char := "- [X] ".toList
def c10RoadLine : List Char := "- [X] **Phase 1: A**".toList

/-- The contribution of a single in-section line to `_parse_state_todos`. -/
def todoLineOf (l : List Char) : Option Todo :=
  let s := strip l
  if startsWithL todoMark s then
    (let t := strip (s.drop 6)
     if t.isEmpty then none else some ⟨t, false⟩)
  else none

def c10RoadPhase : Phase :=
  { name := "Phase 1: A".toList, description := [], status := Status.completed }

/-! Helper lemmas about the embedded string primitives. -/

theorem takeWhile_append_of_all (p : Char → Bool) (l r : List Char)
    (h : ∀ a ∈ l, p a = true) : (l ++ r).takeWhile p = l ++ r.takeWhile p := by
  induction l with
  | nil => simp
  | cons a t ih =>
    have ha : p a = true := h a (by simp)
    simp only [List.cons_append, List.takeWhile_cons, ha, if_true]
    rw [ih (fun b hb => h b (by simp [hb]))]

theorem dropWhile_append_of_all (p : Char → Bool) (l r : List Char)
    (h : ∀ a ∈ l, p a = true) : (l ++ r).dropWhile p = r.dropWhile p := by
  induction l with
  | nil => simp
  | cons a t ih =>
    have ha : p a = true := h a (by simp)
    simp only [List.cons_append, List.dropWhile_cons, ha, if_true]
    exact ih (fun b hb => h b (by simp [hb]))

theorem hasChar_append (c : Char) (a b : List Char) :
    hasChar c (a ++ b) = (hasChar c a || hasChar c b) := by
  induction a with
  | nil => simp [hasChar]
  | cons x t ih => simp [hasChar, ih, Bool.or_assoc]

theorem ne_of_hasChar_false {c : Char} {l : List Char} (h : hasChar c l = false) :
    ∀ b ∈ l, b ≠ c := by
  induction l with
  | nil => simp
  | cons a t ih =>
    simp only [hasChar, Bool.or_eq_false_iff, decide_eq_false_iff_not] at h
    intro b hb
    rcases List.mem_cons.mp hb with rfl | hb
    · exact h.1
    · exact ih h.2 b hb

theorem mem_of_mem_dropWhile {p : Char → Bool} {a : Char} :
    ∀ {l : List Char}, a ∈ l.dropWhile p → a ∈ l := by
  intro l
  induction l with
  | nil => simp
  | cons b t ih =>
    simp only [List.dropWhile_cons]
    intro h
    by_cases hb : p b = true
    · simp only [hb, if_true] at h
      exact List.mem_cons_of_mem b (ih h)
    · simp only [Bool.not_eq_true] at hb
      simp only [hb] at h
      simpa using h

theorem startsWithL_append_self (s r : List Char) : startsWithL s (s ++ r) = true := by
  induction s with
  | nil => simp [startsWithL]
  | cons a t ih => simp [startsWithL, ih]

theorem containsSub_here (s r : List Char) : containsSub s (s ++ r) = true := by
  cases s with
  | nil => cases r <;> simp [containsSub, startsWithL]
  | cons a s' => simp [containsSub, startsWithL, startsWithL_append_self]

theorem containsSub_of_middle (s a b : List Char) :
    containsSub s (a ++ (s ++ b)) = true := by
  induction a with
  | nil => simpa using containsSub_here s b
  | cons x a' ih => simp [containsSub, ih]

theorem digit_not_space {c : Char} (h : isDigitCh c = true) : pyIsSpace c = false := by
  have h1 : c ≠ ' ' := fun e => by subst e; exact absurd h (by decide)
  have h2 : c ≠ '\t' := fun e => by subst e; exact absurd h (by decide)
  have h3 : c ≠ '\n' := fun e => by subst e; exact absurd h (by decide)
  have h4 : c ≠ '\r' := fun e => by subst e; exact absurd h (by decide)
  have h5 : c ≠ '\x0b' := fun e => by subst e; exact absurd h (by decide)
  have h6 : c ≠ '\x0c' := fun e => by subst e; exact absurd h (by decide)
  simp [pyIsSpace, h1, h2, h3, h4, h5, h6]

theorem lstrip_cons_of_neg {c : Char} (rest : List Char) (h : pyIsSpace c = false) :
    lstrip (c :: rest) = c :: rest := by
  simp [lstrip, List.dropWhile_cons, h]

theorem rstrip_eq_self {l : List Char}
    (h : ∀ a, l.reverse.head? = some a → pyIsSpace a = false) : rstrip l = l := by
  unfold rstrip
  cases hr : l.reverse with
  | nil =>
    have : l = [] := by simpa using congrArg List.reverse hr
    simp [this]
  | cons a t =>
    have ha := h a (by rw [hr]; rfl)
    rw [List.dropWhile_cons]
    simp only [ha, Bool.false_eq_true, if_false]
    rw [← hr, List.reverse_reverse]

theorem normEOL_clean (l : List Char) (h : hasChar '\r' l = false) : normEOL l = l := by
  induction l with
  | nil => rfl
  | cons c rest ih =>
    simp only [hasChar, Bool.or_eq_false_iff, decide_eq_false_iff_not] at h
    rw [normEOL.eq_def]
    split
    · rename_i heq; simp at heq
    · rename_i heq; injection heq with h1 _; exact absurd h1 h.1
    · rename_i heq; injection heq with h1 _; exact absurd h1 h.1
    · rename_i heq
      injection heq with h1 h2
      subst h1; subst h2
      rw [ih h.2]

theorem joinNL_cons₂ (l l2 : List Char) (ls : List (List Char)) :
    joinNL (l :: l2 :: ls) = l ++ '\n' :: joinNL (l2 :: ls) := by
  rw [joinNL]
  simp

theorem splitlinesGo_append (l : List Char) (hl : ∀ c ∈ l, c ≠ '\n') :
    ∀ (acc r : List Char),
      splitlinesGo acc (l ++ '\n' :: r) =
        (acc.reverse ++ l) :: (if r.isEmpty then [] else splitlinesGo [] r) := by
  induction l with
  | nil => intro acc r; simp [splitlinesGo]
  | cons c t ih =>
    intro acc r
    have hc : ¬ (c = '\n') := hl c (by simp)
    rw [List.cons_append]
    simp only [splitlinesGo]
    rw [if_neg hc]
    rw [ih (fun b hb => hl b (by simp [hb])) (c :: acc) r]
    simp

theorem splitlinesGo_final (l : List Char) (hl : ∀ c ∈ l, c ≠ '\n') :
    ∀ acc : List Char, splitlinesGo acc l = [acc.reverse ++ l] := by
  induction l with
  | nil => intro acc; simp [splitlinesGo]
  | cons c t ih =>
    intro acc
    have hc : ¬ (c = '\n') := hl c (by simp)
    simp only [splitlinesGo]
    rw [if_neg hc]
    rw [ih (fun b hb => hl b (by simp [hb])) (c :: acc)]
    simp

theorem joinNL_no_cr (lines : List (List Char))
    (h : ∀ l ∈ lines, hasChar '\r' l = false) : hasChar '\r' (joinNL lines) = false := by
  induction lines with
  | nil => rfl
  | cons l ls ih =>
    cases ls with
    | nil => simpa [joinNL] using h l (by simp)
    | cons l2 ls' =>
      rw [joinNL_cons₂, hasChar_append]
      simp only [hasChar]
      rw [ih (fun x hx => h x (by simp [hx]))]
      simp [h l (by simp)]

theorem joinNL_ne_nil (lines : List (List Char)) (h0 : lines ≠ [])
    (h : ∀ l ∈ lines, l ≠ []) : joinNL lines ≠ [] := by
  cases lines with
  | nil => exact absurd rfl h0
  | cons l ls =>
    cases ls with
    | nil => simpa [joinNL] using h l (by simp)
    | cons l2 ls' =>
      rw [joinNL_cons₂]
      have := h l (by simp)
      cases l with
      | nil => exact absurd rfl this
      | cons a t => simp

theorem splitlines_joinNL (lines : List (List Char))
    (h : ∀ l ∈ lines, l ≠ [] ∧ hasChar '\n' l = false ∧ hasChar '\r' l = false) :
    splitlines (joinNL lines) = lines := by
  induction lines with
  | nil => simp [splitlines, joinNL]
  | cons l ls ih =>
    have hl := h l (by simp)
    cases ls with
    | nil =>
      rw [joinNL, splitlines]
      rw [if_neg (by simpa [List.isEmpty_iff] using hl.1)]
      rw [normEOL_clean l hl.2.2]
      rw [splitlinesGo_final l (ne_of_hasChar_false hl.2.1) []]
      simp
    | cons l2 ls' =>
      rw [joinNL_cons₂]
      have hne : joinNL (l2 :: ls') ≠ [] :=
        joinNL_ne_nil _ (by simp) (fun x hx => (h x (by simp [hx])).1)
      have hcr : hasChar '\r' (joinNL (l2 :: ls')) = false :=
        joinNL_no_cr _ (fun x hx => (h x (by simp [hx])).2.2)
      rw [splitlines]
      rw [if_neg (by
        cases l with
        | nil => exact absurd rfl hl.1
        | cons a t => simp)]
      rw [normEOL_clean _ (by
        rw [hasChar_append]
        simp only [hasChar]
        rw [hl.2.2, hcr]
        simp)]
      rw [splitlinesGo_append l (ne_of_hasChar_false hl.2.1) [] (joinNL (l2 :: ls'))]
      rw [if_neg (by simpa [List.isEmpty_iff] using hne)]
      have ihr := ih (fun x hx => h x (by simp [hx]))
      rw [splitlines] at ihr
      rw [if_neg (by simpa [List.isEmpty_iff] using hne)] at ihr
      rw [normEOL_clean _ hcr] at ihr
      rw [ihr]
      simp

theorem inferLoop_none_iff (l : List Phase) :
    inferLoop l = none ↔ ∀ p ∈ l, p.status = Status.completed := by
  induction l with
  | nil => simp [inferLoop]
  | cons a t ih =>
    by_cases ha : a.status = Status.completed
    · simp [inferLoop, ha, ih]
    · simp [inferLoop, ha]

theorem inferLoop_some_iff (l : List Phase) (p : Phase) :
    inferLoop l = some p ↔
      ∃ pre post, l = pre ++ p :: post ∧ (∀ q ∈ pre, q.status = Status.completed) ∧
        p.status ≠ Status.completed := by
  induction l with
  | nil =>
    simp only [inferLoop]
    constructor
    · intro h; cases h
    · rintro ⟨pre, post, hl, -, -⟩
      exact absurd hl (by cases pre <;> simp)
  | cons a t ih =>
    by_cases ha : a.status = Status.completed
    · rw [inferLoop, if_neg (by simp [ha])]
      rw [ih]
      constructor
      · rintro ⟨pre, post, hl, hpre, hp⟩
        exact ⟨a :: pre, post, by simp [hl], by
          intro q hq
          rcases List.mem_cons.mp hq with rfl | hq
          · exact ha
          · exact hpre q hq, hp⟩
      · rintro ⟨pre, post, hl, hpre, hp⟩
        cases pre with
        | nil =>
          simp only [List.nil_append] at hl
          injection hl with h1 h2
          subst h1
          exact absurd ha hp
        | cons b pre' =>
          injection hl with h1 h2
          subst h1
          exact ⟨pre', post, h2, fun q hq => hpre q (by simp [hq]), hp⟩
    · rw [inferLoop, if_pos (by simp [ha])]
      constructor
      · intro h
        injection h with h1
        subst h1
        exact ⟨[], t, rfl, by simp, ha⟩
      · rintro ⟨pre, post, hl, hpre, hp⟩
        cases pre with
        | nil =>
          simp only [List.nil_append] at hl
          injection hl with h1 h2
          rw [h1]
        | cons b pre' =>
          injection hl with h1 h2
          subst h1
          exact absurd (hpre a (by simp)) ha

theorem mergeGo_spec (s : List Todo) :
    ∀ (acc : List Todo),
      ∃ rest, mergeGo acc (acc.map (fun t => lowerL t.text)) s = acc ++ rest ∧
        (∀ u ∈ rest, u ∈ s ∧ ∀ t ∈ acc, lowerL t.text ≠ lowerL u.text) ∧
        (∀ u ∈ s, ∃ w ∈ acc ++ rest, lowerL w.text = lowerL u.text) := by
  induction s with
  | nil => intro acc; exact ⟨[], by simp [mergeGo]⟩
  | cons t s' ih =>
    intro acc
    by_cases hm : (acc.map (fun t => lowerL t.text)).contains (lowerL t.text)
    · obtain ⟨rest, h1, h2, h3⟩ := ih acc
      refine ⟨rest, ?_, ?_, ?_⟩
      · rw [mergeGo, if_pos hm]; exact h1
      · intro u hu
        obtain ⟨hu1, hu2⟩ := h2 u hu
        exact ⟨by simp [hu1], hu2⟩
      · intro u hu
        rcases List.mem_cons.mp hu with rfl | hu
        · have := List.contains_iff_exists_mem_beq.mp hm
          obtain ⟨x, hx, hbeq⟩ := this
          obtain ⟨w, hw, hwx⟩ := List.mem_map.mp hx
          refine ⟨w, by simp [hw], ?_⟩
          rw [hwx]
          exact (eq_of_beq hbeq).symm
        · exact h3 u hu
    · obtain ⟨rest, h1, h2, h3⟩ := ih (acc ++ [t])
      rw [List.map_append] at h1
      refine ⟨t :: rest, ?_, ?_, ?_⟩
      · rw [mergeGo, if_neg hm]
        simpa [List.append_assoc] using h1
      · intro u hu
        rcases List.mem_cons.mp hu with rfl | hu
        · refine ⟨by simp, ?_⟩
          intro x hx he
          apply hm
          apply List.contains_iff_exists_mem_beq.mpr
          exact ⟨lowerL x.text, by simpa using ⟨x, hx, rfl⟩, by simp [he]⟩
        · obtain ⟨hu1, hu2⟩ := h2 u hu
          refine ⟨by simp [hu1], ?_⟩
          intro x hx
          exact hu2 x (by simp [hx])
      · intro u hu
        rcases List.mem_cons.mp hu with rfl | hu
        · exact ⟨u, by simp, rfl⟩
        · obtain ⟨w, hw, hwe⟩ := h3 u hu
          refine ⟨w, ?_, hwe⟩
          rcases List.mem_append.mp hw with hw | hw
          · rcases List.mem_append.mp hw with hw | hw
            · simp [hw]
            · simp only [List.mem_singleton] at hw
              simp [hw]
          · simp [hw]

theorem searchF_of_some {α : Type} (f : List Char → Option α) (l : List Char) (a : α)
    (h : f l = some a) : searchF f l = some a := by
  cases l with
  | nil => simpa [searchF] using h
  | cons x t => simp [searchF, h]

theorem tableStatus_find (cells : List (List Char)) :
    tableStatus cells =
      (match cells.find? (fun p => kwComplete p || kwProgress p) with
       | none => Status.pending
       | some p => if kwComplete p then Status.completed else Status.in_progress) := by
  induction cells with
  | nil => simp [tableStatus, List.find?]
  | cons p rest ih =>
    by_cases hc : kwComplete p
    · simp [tableStatus, List.find?_cons, hc]
    · by_cases hp : kwProgress p
      · simp [tableStatus, List.find?_cons, hc, hp]
      · simp [tableStatus, List.find?_cons, hc, hp, ih]

theorem parse_table_status (line : List Char) (ph : Phase)
    (h : parse_table_phase line = some ph) :
    ph.status = tableStatus (tableCells line).tail := by
  simp only [parse_table_phase] at h
  split at h
  · split at h
    · cases h
    · split at h
      · cases h
      · rename_i p0 rest heq
        split at h
        · cases h
        · split at h
          · cases h
          · injection h with h1
            subst h1
            rw [heq]
            simp
  · cases h

theorem tableAlt2_inj {num r num' title : List Char}
    (h : tableAlt2 num r = some (num', title)) : num' = num := by
  simp only [tableAlt2] at h
  split at h
  · injection h with h1
    injection h1 with h2 h3
    exact h2.symm
  · cases h

theorem tablePhaseName_num {p0 num title : List Char}
    (h : tablePhaseName p0 = some (num, title)) :
    num = p0.takeWhile isDigitCh ∧ num.isEmpty = false := by
  simp only [tablePhaseName] at h
  split at h
  · cases h
  · rename_i hne
    have hnum : num = p0.takeWhile isDigitCh := by
      split at h
      · split at h
        · injection h with h1
          injection h1 with h2 h3
          exact h2.symm
        · exact tableAlt2_inj h
      · exact tableAlt2_inj h
    refine ⟨hnum, ?_⟩
    rw [hnum]
    simpa using hne

theorem parse_table_name (line : List Char) (p : Phase)
    (h : parse_table_phase line = some p) :
    ∃ num rest, p.name = phaseSpace ++ (num ++ ':' :: rest) ∧
      num.isEmpty = false ∧ ∀ a ∈ num, isDigitCh a = true := by
  simp only [parse_table_phase] at h
  split at h
  · split at h
    · cases h
    · split at h
      · cases h
      · split at h
        · cases h
        · split at h
          · cases h
          · rename_i num title heq
            injection h with h1
            subst h1
            obtain ⟨hnum, hne⟩ := tablePhaseName_num heq
            refine ⟨num, ' ' :: strip title, by simp, hne, ?_⟩
            intro a ha
            rw [hnum] at ha
            exact List.mem_takeWhile_imp ha
  · cases h

theorem extractPhaseAt_at {num rest : List Char} (h1 : num.isEmpty = false)
    (h2 : ∀ a ∈ num, isDigitCh a = true) :
    extractPhaseAt (phaseSpace ++ (num ++ ':' :: rest)) = some (digitsVal num) := by
  simp only [extractPhaseAt]
  rw [if_pos (startsWithL_append_self _ _)]
  have h6 : phaseSpace.length = 6 := rfl
  rw [← h6, List.drop_left]
  rw [takeWhile_append_of_all isDigitCh num (':' :: rest) h2]
  have hcolon : List.takeWhile isDigitCh (':' :: rest) = [] := by
    rw [List.takeWhile_cons]
    simp only [show isDigitCh ':' = false from rfl, Bool.false_eq_true, if_false]
  rw [hcolon, List.append_nil]
  rw [if_neg (by simp [h1])]

theorem checkboxColon_name {c : Char} {ws num r5 : List Char} {p : Phase}
    (h : checkboxColon c ws num r5 = some p) :
    ∃ rest, p.name = phaseWord ++ ws ++ num ++ ':' :: rest := by
  rw [checkboxColon.eq_def] at h
  split at h
  · split at h
    · injection h with h1
      subst h1
      exact ⟨_, rfl⟩
    · cases h
  · cases h

theorem checkboxNum_shape {c : Char} {r3 : List Char} {p : Phase}
    (h : checkboxNum c r3 = some p) :
    ∃ ws num rest, p.name = phaseWord ++ ws ++ num ++ ':' :: rest ∧
      ws ≠ [] ∧ (∀ a ∈ ws, pyIsSpace a = true) ∧ num ≠ [] ∧
      (∀ a ∈ num, isNumDot a = true) := by
  simp only [checkboxNum] at h
  split at h
  · cases h
  · rename_i hguard
    simp only [Bool.or_eq_true, not_or] at hguard
    obtain ⟨rest, hname⟩ := checkboxColon_name h
    refine ⟨_, _, rest, hname, ?_, ?_, ?_, ?_⟩
    · intro e
      rw [e] at hguard
      exact hguard.1 (by simp)
    · exact fun a ha => List.mem_takeWhile_imp ha
    · intro e
      rw [e] at hguard
      exact hguard.2 (by simp)
    · exact fun a ha => List.mem_takeWhile_imp ha

theorem parse_checkbox_shape (line : List Char) (p : Phase)
    (h : parse_checkbox_phase line = some p) :
    ∃ ws num rest, p.name = phaseWord ++ ws ++ num ++ ':' :: rest ∧
      ws ≠ [] ∧ (∀ a ∈ ws, pyIsSpace a = true) ∧ num ≠ [] ∧
      (∀ a ∈ num, isNumDot a = true) := by
  simp only [parse_checkbox_phase] at h
  rw [parse_checkbox_core.eq_def] at h
  split at h
  · split at h
    · cases h
    · rw [checkboxAfterBracket.eq_def] at h
      split at h
      · exact checkboxNum_shape h
      · cases h
  · cases h

theorem todosGo_start (l : List Char) (rest : List (List Char))
    (h1 : strip l = pendingHeader) : todosGo false (l :: rest) = todosGo true rest := by
  simp only [todosGo]
  rw [if_pos h1]

theorem todosGo_stop (l : List Char) (rest : List (List Char))
    (h1 : strip l ≠ pendingHeader) (h2 : startsWithL headingMark (strip l) = true) :
    todosGo true (l :: rest) = [] := by
  simp only [todosGo]
  rw [if_neg h1]
  rw [if_pos (by simp [h2])]

theorem todosGo_body (body : List (List Char))
    (hb : ∀ l ∈ body, startsWithL headingMark (strip l) = false) :
    ∀ rest, todosGo true (body ++ rest) = body.filterMap todoLineOf ++ todosGo true rest := by
  induction body with
  | nil => intro rest; simp
  | cons l t ih =>
    intro rest
    have hhl := hb l (by simp)
    have h1 : ¬ (strip l = pendingHeader) := by
      intro e
      rw [e] at hhl
      exact absurd hhl (by decide)
    rw [List.cons_append]
    simp only [todosGo]
    rw [if_neg h1]
    rw [if_neg (by simp [hhl])]
    by_cases h2 : startsWithL todoMark (strip l) = true
    · rw [if_pos (by simp [h2])]
      by_cases h3 : (strip ((strip l).drop 6)).isEmpty = true
      · rw [if_pos h3]
        rw [ih (fun x hx => hb x (by simp [hx])) rest]
        have hline : todoLineOf l = none := by
          simp only [todoLineOf, h2, if_true]
          rw [if_pos h3]
        simp [List.filterMap_cons, hline]
      · rw [if_neg h3]
        rw [ih (fun x hx => hb x (by simp [hx])) rest]
        have hline : todoLineOf l = some ⟨strip ((strip l).drop 6), false⟩ := by
          simp only [todoLineOf, h2, if_true]
          rw [if_neg h3]
        simp [List.filterMap_cons, hline]
    · rw [if_neg (by simp [h2])]
      rw [ih (fun x hx => hb x (by simp [hx])) rest]
      have hline : todoLineOf l = none := by
        simp only [todoLineOf]
        rw [if_neg h2]
      simp [List.filterMap_cons, hline]

theorem checkboxScan_tail_some {v d : List Char} (acc : List Char)
    (h : checkboxTail v = some d) : checkboxScan acc v = some (acc.reverse, d) := by
  cases v with
  | nil => cases h
  | cons c rest =>
    simp only [checkboxScan]
    rw [h]

theorem checkboxScan_step {c : Char} (acc rest : List Char)
    (h : checkboxTail (c :: rest) = none) (hc : ¬ c = '\n') :
    checkboxScan acc (c :: rest) = checkboxScan (c :: acc) rest := by
  simp only [checkboxScan]
  rw [h]
  simp [hc]

theorem checkboxScan_append (u v d : List Char)
    (hu : ∀ c ∈ u, c ≠ '\n')
    (hfail : ∀ u₁ u₂, u = u₁ ++ u₂ → u₂ ≠ [] → checkboxTail (u₂ ++ v) = none)
    (hv : checkboxTail v = some d) :
    ∀ acc, checkboxScan acc (u ++ v) = some (acc.reverse ++ u, d) := by
  induction u with
  | nil => intro acc; simpa using checkboxScan_tail_some acc hv
  | cons c t ih =>
    intro acc
    have h1 : checkboxTail ((c :: t) ++ v) = none := hfail [] (c :: t) rfl (by simp)
    rw [List.cons_append]
    rw [checkboxScan_step acc (t ++ v) (by simpa using h1) (hu c (by simp))]
    rw [ih (fun b hb => hu b (by simp [hb]))
        (fun u₁ u₂ he hne => hfail (c :: u₁) u₂ (by simp [he]) hne) (c :: acc)]
    simp

theorem checkboxTail_not_star {c1 c2 : Char} (r : List Char) (h : ¬ (c1 = '*' ∧ c2 = '*')) :
    checkboxTail (c1 :: c2 :: r) = none := by
  simp only [checkboxTail]
  rw [if_neg h]

theorem checkboxTail_tripleStar (D : List Char) :
    checkboxTail ('*' :: '*' :: '*' :: ' ' :: '-' :: ' ' :: D) = none := rfl

theorem checkboxTail_boundary (D : List Char) (hD : hasChar '\n' (D.dropWhile pyIsSpace) = false) :
    checkboxTail ('*' :: '*' :: ' ' :: '-' :: ' ' :: D) = some (D.dropWhile pyIsSpace) := by
  show (if hasChar '\n' (D.dropWhile pyIsSpace) = true then none
        else some (D.dropWhile pyIsSpace)) = some (D.dropWhile pyIsSpace)
  rw [if_neg (by simp [hD])]

theorem head_not_space {l : List Char} (h : pyIsSpace (l.headD 'a') = false) :
    ∀ b, l.head? = some b → pyIsSpace b = false := by
  intro b hb
  cases l with
  | nil => cases hb
  | cons x t =>
    injection hb with hx
    subst hx
    exact h

theorem reverse_headD_append (A : List Char) {D : List Char} (hD : D ≠ []) (dflt : Char) :
    ((A ++ D).reverse).headD dflt = (D.reverse).headD dflt := by
  rw [List.reverse_append]
  cases hDr : D.reverse with
  | nil => exact absurd (by simpa using congrArg List.reverse hDr) hD
  | cons d t => simp

theorem rstrip_append_right (A D : List Char) (hne : D ≠ [])
    (hD : ∀ a, (D.reverse).head? = some a → pyIsSpace a = false) :
    rstrip (A ++ D) = A ++ D := by
  apply rstrip_eq_self
  intro a ha
  apply hD
  rw [List.reverse_append] at ha
  cases hDr : D.reverse with
  | nil => exact absurd (by simpa using congrArg List.reverse hDr) hne
  | cons d t =>
    rw [hDr] at ha
    rw [List.cons_append] at ha
    simpa using ha

theorem strip_eq_self_of (l : List Char) (h1 : pyIsSpace (l.headD 'a') = false)
    (h2 : pyIsSpace ((l.reverse).headD 'a') = false) : strip l = l := by
  have hl : lstrip l = l := by
    cases l with
    | nil => rfl
    | cons x t =>
      have := head_not_space h1 x rfl
      simp [lstrip, List.dropWhile_cons, this]
  rw [strip, hl]
  exact rstrip_eq_self (head_not_space h2)

theorem checkbox_hfail (T D : List Char) (hT2 : containsSub starStar T = false) :
    ∀ u₁ u₂, (' ' :: T) = u₁ ++ u₂ → u₂ ≠ [] →
      checkboxTail (u₂ ++ ('*' :: '*' :: ' ' :: '-' :: ' ' :: D)) = none := by
  intro u₁ u₂ he hne
  rcases u₂ with _ | ⟨x, _ | ⟨y, w⟩⟩
  · exact absurd rfl hne
  · by_cases hx : x = '*'
    · subst hx
      exact checkboxTail_tripleStar D
    · exact checkboxTail_not_star _ (fun hc => hx hc.1)
  · by_cases hxy : x = '*' ∧ y = '*'
    · exfalso
      obtain ⟨hx, hy⟩ := hxy
      subst hx
      subst hy
      cases u₁ with
      | nil =>
        rw [List.nil_append] at he
        injection he with h1 _
        cases h1
      | cons a u₁' =>
        rw [List.cons_append] at he
        injection he with h1 h2
        have hsub : containsSub starStar T = true := by
          rw [h2]
          have hmid := containsSub_of_middle starStar u₁' w
          have e : starStar ++ w = '*' :: '*' :: w := rfl
          rw [e] at hmid
          exact hmid
        rw [hsub] at hT2
        cases hT2
    · rw [List.cons_append, List.cons_append]
      exact checkboxTail_not_star _ hxy

/-! The claim theorems. -/

/-- Claim C3: for every well-formed checkbox line `- [c] **Phase N: T** - D`,
`_parse_checkbox_phase` yields exactly one phase record with name
`Phase N: T`, description `D`, and status determined totally and
exhaustively by the status character `c`: `x`/`X` map to completed, `/`
maps to in_progress, and any other character (including space) maps to
pending. -/
theorem claim_c3_checkbox_wellformed (c : Char) (N T D : List Char)
    (hc : c ≠ '\n')
    (hN1 : N ≠ []) (hN2 : ∀ a ∈ N, isDigitCh a = true)
    (hT1 : hasChar '\n' T = false) (hT2 : containsSub starStar T = false)
    (hD1 : D ≠ []) (hD2 : hasChar '\n' D = false)
    (hD3 : pyIsSpace (D.headD 'a') = false)
    (hD4 : pyIsSpace ((D.reverse).headD 'a') = false) :
    parse_checkbox_phase (cbPre ++ c :: cbMid ++ N ++ colonSpace ++ T ++ cbEnd ++ D) =
      some { name := phaseSpace ++ N ++ colonSpace ++ T, description := D,
             status := statusOfChar c } ∧
    statusOfChar c = (if c = 'x' ∨ c = 'X' then Status.completed
      else if c = '/' then Status.in_progress else Status.pending) := by
  constructor
  · obtain ⟨n0, N', rfl⟩ : ∃ n0 N', N = n0 :: N' := by
      cases N with
      | nil => exact absurd rfl hN1
      | cons a b => exact ⟨a, b, rfl⟩
    have hn0 : isDigitCh n0 = true := hN2 n0 (by simp)
    have hDdrop : D.dropWhile pyIsSpace = D := by
      cases D with
      | nil => rfl
      | cons d0 D' => simp [List.dropWhile_cons, head_not_space hD3 d0 rfl]
    have eline :
        cbPre ++ c :: cbMid ++ (n0 :: N') ++ colonSpace ++ T ++ cbEnd ++ D =
          '-' :: ' ' :: '[' :: c :: ']' :: ' ' :: '*' :: '*' :: 'P' :: 'h' :: 'a' :: 's' :: 'e' ::
            ' ' :: ((n0 :: N') ++ ':' :: ' ' :: (T ++ '*' :: '*' :: ' ' :: '-' :: ' ' :: D)) := by
      have e1 : cbPre = ['-', ' ', '['] := rfl
      have e2 : cbMid = [']', ' ', '*', '*', 'P', 'h', 'a', 's', 'e', ' '] := rfl
      have e3 : colonSpace = [':', ' '] := rfl
      have e4 : cbEnd = ['*', '*', ' ', '-', ' '] := rfl
      rw [e1, e2, e3, e4]
      simp
    rw [eline]
    have hsplit :
        '-' :: ' ' :: '[' :: c :: ']' :: ' ' :: '*' :: '*' :: 'P' :: 'h' :: 'a' :: 's' :: 'e' ::
            ' ' :: ((n0 :: N') ++ ':' :: ' ' :: (T ++ '*' :: '*' :: ' ' :: '-' :: ' ' :: D)) =
          ('-' :: ' ' :: '[' :: c :: ']' :: ' ' :: '*' :: '*' :: 'P' :: 'h' :: 'a' :: 's' :: 'e' ::
            ' ' :: ((n0 :: N') ++ [':', ' '] ++ T ++ ['*', '*', ' ', '-', ' '])) ++ D := by
      simp
    have hstrip : strip ('-' :: ' ' :: '[' :: c :: ']' :: ' ' :: '*' :: '*' :: 'P' :: 'h' :: 'a' ::
        's' :: 'e' :: ' ' :: ((n0 :: N') ++ ':' :: ' ' ::
          (T ++ '*' :: '*' :: ' ' :: '-' :: ' ' :: D))) =
        '-' :: ' ' :: '[' :: c :: ']' :: ' ' :: '*' :: '*' :: 'P' :: 'h' :: 'a' :: 's' :: 'e' ::
            ' ' :: ((n0 :: N') ++ ':' :: ' ' :: (T ++ '*' :: '*' :: ' ' :: '-' :: ' ' :: D)) := by
      apply strip_eq_self_of
      · rfl
      · rw [hsplit, reverse_headD_append _ hD1]
        exact hD4
    simp only [parse_checkbox_phase]
    rw [hstrip]
    simp only [parse_checkbox_core]
    rw [if_neg hc]
    rw [List.dropWhile_cons]
    simp only [show pyIsSpace ' ' = true from rfl, if_true]
    rw [List.dropWhile_cons]
    simp only [show pyIsSpace '*' = false from rfl, Bool.false_eq_true, if_false]
    simp only [checkboxAfterBracket]
    simp only [checkboxNum]
    have hws : (' ' :: ((n0 :: N') ++ ':' :: ' ' ::
        (T ++ '*' :: '*' :: ' ' :: '-' :: ' ' :: D))).takeWhile pyIsSpace = [' '] := by
      rw [List.takeWhile_cons]
      simp only [show pyIsSpace ' ' = true from rfl, if_true]
      rw [List.cons_append, List.takeWhile_cons]
      simp only [digit_not_space hn0, Bool.false_eq_true, if_false]
    have hr4 : (' ' :: ((n0 :: N') ++ ':' :: ' ' ::
        (T ++ '*' :: '*' :: ' ' :: '-' :: ' ' :: D))).dropWhile pyIsSpace =
        (n0 :: N') ++ ':' :: ' ' :: (T ++ '*' :: '*' :: ' ' :: '-' :: ' ' :: D) := by
      rw [List.dropWhile_cons]
      simp only [show pyIsSpace ' ' = true from rfl, if_true]
      rw [List.cons_append, List.dropWhile_cons]
      simp only [digit_not_space hn0, Bool.false_eq_true, if_false]
    have hnum : ((n0 :: N') ++ ':' :: ' ' ::
        (T ++ '*' :: '*' :: ' ' :: '-' :: ' ' :: D)).takeWhile isNumDot = n0 :: N' := by
      rw [takeWhile_append_of_all isNumDot (n0 :: N') _
        (fun a ha => by simp [isNumDot, hN2 a ha])]
      rw [List.takeWhile_cons]
      simp only [show isNumDot ':' = false from rfl, Bool.false_eq_true, if_false,
        List.append_nil]
    have hr5 : ((n0 :: N') ++ ':' :: ' ' ::
        (T ++ '*' :: '*' :: ' ' :: '-' :: ' ' :: D)).dropWhile isNumDot =
        ':' :: ' ' :: (T ++ '*' :: '*' :: ' ' :: '-' :: ' ' :: D) := by
      rw [dropWhile_append_of_all isNumDot (n0 :: N') _
        (fun a ha => by simp [isNumDot, hN2 a ha])]
      rw [List.dropWhile_cons]
      simp only [show isNumDot ':' = false from rfl, Bool.false_eq_true, if_false]
    rw [hws, hr4, hnum, hr5]
    rw [if_neg (by simp)]
    simp only [checkboxColon]
    have hv : checkboxTail ('*' :: '*' :: ' ' :: '-' :: ' ' :: D) = some D := by
      have hb := checkboxTail_boundary D (by rw [hDdrop]; exact hD2)
      rw [hDdrop] at hb
      exact hb
    have hu : ∀ a ∈ (' ' :: T), a ≠ '\n' := by
      intro a ha
      rcases List.mem_cons.mp ha with rfl | ha
      · exact (by decide)
      · exact ne_of_hasChar_false hT1 a ha
    have hscan := checkboxScan_append (' ' :: T) ('*' :: '*' :: ' ' :: '-' :: ' ' :: D) D hu
      (checkbox_hfail T D hT2) hv []
    have hscan' : checkboxScan [] (' ' :: (T ++ '*' :: '*' :: ' ' :: '-' :: ' ' :: D)) =
        some (List.reverse [] ++ (' ' :: T), D) := hscan
    rw [hscan']
    have p1 : phaseWord = ['P', 'h', 'a', 's', 'e'] := rfl
    have p2 : phaseSpace = ['P', 'h', 'a', 's', 'e', ' '] := rfl
    have p3 : colonSpace = [':', ' '] := rfl
    simp only [List.reverse_nil, List.nil_append]
    rw [strip_eq_self_of D hD3 hD4]
    rw [p1, p2, p3]
    simp
  · by_cases h1 : c = 'x'
    · simp [statusOfChar, h1]
    · by_cases h2 : c = 'X'
      · simp [statusOfChar, h1, h2]
      · by_cases h3 : c = '/'
        · simp [statusOfChar, h1, h2, h3]
        · simp [statusOfChar, h1, h2, h3]

/-- Witness for C3 at the concrete line `- [x] **Phase 1: Setup** - Initial setup`. -/
theorem claim_c3_witness :
    parse_checkbox_phase (cbPre ++ 'x' :: cbMid ++ c3N ++ colonSpace ++ c3T ++ cbEnd ++ c3D) =
      some { name := phaseSpace ++ c3N ++ colonSpace ++ c3T, description := c3D,
             status := statusOfChar 'x' } :=
  (claim_c3_checkbox_wellformed 'x' c3N c3T c3D (by decide) (by decide) (by decide)
    (by decide) (by decide) (by decide) (by decide) (by decide) (by decide)).1

/-- Claim C1 (counterexample): in the table row `| 1. A | active | complete |`
a cell containing `active` precedes a cell containing `complete`, and the
parsed status is in_progress, not completed as the claim requires. -/
theorem claim_c1_counterexample :
    parse_table_phase c1CexLine =
      some { name := c1CexName, description := [], status := Status.in_progress } ∧
      Status.in_progress ≠ Status.completed := by
  constructor
  · decide
  · decide

/-- Claim C1 (amended): the status of a table row is decided by the first
non-first cell, in left-to-right order, containing any status keyword —
completed when that cell passes the complete/shipped/check test, otherwise
in_progress — and pending when no cell contains a keyword; a completed
keyword in a later cell does not override an earlier progress/active
cell. -/
theorem claim_c1_amended :
    (∀ cells : List (List Char),
        tableStatus cells =
          (match cells.find? (fun p => kwComplete p || kwProgress p) with
           | none => Status.pending
           | some p => if kwComplete p then Status.completed else Status.in_progress)) ∧
      ∀ line ph, parse_table_phase line = some ph →
        ph.status = tableStatus (tableCells line).tail :=
  ⟨tableStatus_find, parse_table_status⟩

/-- Witness for the amended C1 on the row `| 2. Core | v2.0 | 0/3 | In Progress |`. -/
theorem claim_c1_witness : c1WPhase.status = tableStatus (tableCells c1WLine).tail :=
  claim_c1_amended.2 c1WLine c1WPhase (by decide)

/-- Claim C2 (counterexample): `_parse_progress` does not clamp to 100 —
on `Progress: [█] 150%` it returns 150. -/
theorem claim_c2_counterexample :
    parse_progress c2CexContent = 150 ∧ ¬ (parse_progress c2CexContent ≤ 100) := by
  constructor
  · decide
  · decide

/-- Claim C2 (amended): `_parse_progress` always returns a nonnegative
integer, returns 0 when none of the four formats matches anywhere in the
text, and `parse_state` stores exactly this value in `progress_percent`;
values above 100 are passed through unclamped. -/
theorem claim_c2_amended (content : List Char) :
    0 ≤ parse_progress content ∧
      (searchF pf1At content = none → searchF pf2At content = none →
        searchF pf3At content = none → searchF pf4At content = none →
        parse_progress content = 0) ∧
      (parse_state (some content)).progress_percent = some (parse_progress content) := by
  refine ⟨?_, ?_, ?_⟩
  · unfold parse_progress
    repeat' split
    all_goals simp [Int.natCast_nonneg]
  · intro h1 h2 h3 h4
    unfold parse_progress
    rw [h1, h2, h3, h4]
  · rfl

/-- Witness for the amended C2 on text with no progress format. -/
theorem claim_c2_witness : 0 ≤ parse_progress c2WContent ∧ parse_progress c2WContent = 0 :=
  ⟨(claim_c2_amended c2WContent).1,
    (claim_c2_amended c2WContent).2.1 (by decide) (by decide) (by decide) (by decide)⟩

/-- Claim C4 (counterexample): `- [x] **Phase .: T**` is accepted by
checkbox parsing (the phase-number class is `[\d\.]+`), and its name
`Phase .: T` has no extractable integer phase number. -/
theorem claim_c4_counterexample :
    parse_checkbox_phase c4CexLine =
      some { name := c4CexName, description := [], status := Status.completed } ∧
      extract_phase_num c4CexName = none := by
  constructor
  · decide
  · decide

/-- Claim C4 (amended): every table-parsed phase name contains an
extractable integer phase number; a checkbox-parsed name is `Phase`
followed by whitespace, a nonempty run of digits and dots, and a colon —
which need not contain an extractable integer (shipped-milestone records
are keyed by version). -/
theorem claim_c4_amended :
    (∀ line p, parse_table_phase line = some p → (extract_phase_num p.name).isSome = true) ∧
      ∀ line p, parse_checkbox_phase line = some p →
        ∃ ws num rest, p.name = phaseWord ++ ws ++ num ++ ':' :: rest ∧
          ws ≠ [] ∧ (∀ a ∈ ws, pyIsSpace a = true) ∧ num ≠ [] ∧
          (∀ a ∈ num, isNumDot a = true) := by
  constructor
  · intro line p h
    obtain ⟨num, rest, hname, hne, hdig⟩ := parse_table_name line p h
    rw [hname]
    rw [extract_phase_num, searchF_of_some _ _ _ (extractPhaseAt_at hne hdig)]
    rfl
  · exact parse_checkbox_shape

/-- Witness for the amended C4 on the row `| 3. Polish | v1.0 | 0/2 | Not started |`. -/
theorem claim_c4_witness : (extract_phase_num c4WPhase.name).isSome = true :=
  claim_c4_amended.1 c4WLine c4WPhase (by decide)

/-- Claim C5: `infer_active_phase_from_roadmap` returns no result exactly
when every parsed phase is completed (in particular on an empty list), and
returns `p` exactly when `p` is the first phase in document order whose
status is not completed (shipped, in_progress and pending all count as not
done). -/
theorem claim_c5_infer_active (roadmapFile : Option (List Char)) :
    (infer_active_phase_from_roadmap roadmapFile = none ↔
      ∀ p ∈ (parse_roadmap roadmapFile).phases, p.status = Status.completed) ∧
    ∀ p, infer_active_phase_from_roadmap roadmapFile = some p ↔
      ∃ pre post, (parse_roadmap roadmapFile).phases = pre ++ p :: post ∧
        (∀ q ∈ pre, q.status = Status.completed) ∧ p.status ≠ Status.completed := by
  unfold infer_active_phase_from_roadmap
  exact ⟨inferLoop_none_iff _, fun p => inferLoop_some_iff _ p⟩

/-- Witness for C5 on a two-phase roadmap with the first phase completed. -/
theorem claim_c5_witness :
    infer_active_phase_from_roadmap (some c5Content) = some c5Phase2 :=
  ((claim_c5_infer_active (some c5Content)).2 c5Phase2).mpr
    ⟨[c5Phase1], [], by decide, by decide, by decide⟩

/-- Claim C6 (counterexample): after `### Pending Todos`, the higher-level
heading `## Other` does not terminate the section — the checkbox line after
it is still collected. -/
theorem claim_c6_counterexample :
    parse_state_todos c6CexContent = [c6TodoA, c6TodoB] ∧
      parse_state_todos c6CexContent ≠ [c6TodoA] := by
  constructor
  · decide
  · decide

/-- Claim C6 (amended): the `Pending Todos` section extends from its
heading to the next line whose stripped form starts with `### ` — and only
such a line; any body line not of that form (including higher-level
headings such as `## `) is scanned for unchecked checkbox todos, and
nothing after the terminating `### ` line is collected. -/
theorem claim_c6_amended (body tail : List (List Char))
    (hbody : ∀ l ∈ body, l ≠ [] ∧ hasChar '\n' l = false ∧ hasChar '\r' l = false ∧
      startsWithL headingMark (strip l) = false)
    (htail : ∀ l ∈ tail, l ≠ [] ∧ hasChar '\n' l = false ∧ hasChar '\r' l = false) :
    parse_state_todos (joinNL (pendingHeader :: body ++ c6EndLine :: tail)) =
      body.filterMap todoLineOf := by
  unfold parse_state_todos
  rw [splitlines_joinNL]
  · rw [List.cons_append]
    rw [todosGo_start pendingHeader (body ++ c6EndLine :: tail) (by decide)]
    rw [todosGo_body body (fun l hl => (hbody l hl).2.2.2) (c6EndLine :: tail)]
    rw [todosGo_stop c6EndLine tail (by decide) (by decide)]
    simp
  · intro l hl
    rcases List.mem_cons.mp hl with rfl | hl
    · exact ⟨by decide, by decide, by decide⟩
    · rcases List.mem_append.mp hl with hl | hl
      · exact ⟨(hbody l hl).1, (hbody l hl).2.1, (hbody l hl).2.2.1⟩
      · rcases List.mem_cons.mp hl with rfl | hl
        · exact ⟨by decide, by decide, by decide⟩
        · exact htail l hl

/-- Witness for the amended C6: a `## Other` line inside the section does
not stop collection, while the `### End` line does. -/
theorem claim_c6_witness :
    parse_state_todos (joinNL (pendingHeader :: [c6L1, c6L2, c6L3] ++ c6EndLine :: [])) =
      [c6TodoA, c6TodoB] :=
  (claim_c6_amended [c6L1, c6L2, c6L3] [] (by decide) (by decide)).trans (by decide)

/-- Claim C7: progress extraction on the four reference inputs — labelled
bar gives 40, count format gives 62, bare bar gives 25, and text with no
progress format gives 0. -/
theorem claim_c7_progress_formats :
    parse_progress c7In1 = 40 ∧ parse_progress c7In2 = 62 ∧
      parse_progress c7In3 = 25 ∧ parse_progress c7In4 = 0 := by
  refine ⟨?_, ?_, ?_, ?_⟩
  · decide
  · decide
  · decide
  · decide

/-- Claim C8: the pending-todo merge keeps every file-sourced todo with its
casing, drops exactly the state-sourced todos whose lowercased text
collides with a file-sourced one, keeps the rest, and on the reference
example (file `Fix Login`, state `fix login`) produces exactly the file
entry. -/
theorem claim_c8_merge_dedup (fileTodos stateTodos : List Todo) :
    (merge_pending_todos fileTodos stateTodos).take fileTodos.length = fileTodos ∧
      (∀ u ∈ (merge_pending_todos fileTodos stateTodos).drop fileTodos.length,
        u ∈ stateTodos ∧ ∀ t ∈ fileTodos, lowerL t.text ≠ lowerL u.text) ∧
      (∀ u ∈ stateTodos, ∃ w ∈ merge_pending_todos fileTodos stateTodos,
        lowerL w.text = lowerL u.text) ∧
      merge_pending_todos c8File c8State = c8File := by
  obtain ⟨rest, h1, h2, h3⟩ := mergeGo_spec stateTodos fileTodos
  have hm : merge_pending_todos fileTodos stateTodos = fileTodos ++ rest := h1
  refine ⟨?_, ?_, ?_, by decide⟩
  · rw [hm, List.take_left]
  · rw [hm, List.drop_left]
    exact h2
  · intro u hu
    rw [hm]
    exact h3 u hu

/-- Witness for C8: the state-sourced duplicate is represented in the merge
by the file-sourced casing. -/
theorem claim_c8_witness :
    ∃ w ∈ merge_pending_todos c8File c8State, lowerL w.text = lowerL c8SEl.text :=
  (claim_c8_merge_dedup c8File c8State).2.2.1 c8SEl (by decide)

/-- Claim C9: a missing `PROJECT.md`, `ROADMAP.md` or `STATE.md` yields the
empty/default record — no exception path exists (the embedded parsers are
total functions). -/
theorem claim_c9_missing_documents :
    parse_project none = ⟨[]⟩ ∧ parse_roadmap none = ⟨[]⟩ ∧
      parse_state none =
        { current_phase := none, phase_number := none, total_phases := none,
          phase_name := none, milestone_version := none, phases_shipped := none,
          milestone_complete := none, phase_status := none, progress_percent := none,
          last_activity := none, avg_duration := none, state_todos := none,
          concerns := none } :=
  ⟨rfl, rfl, rfl⟩

theorem projGo_active (l : List Char) (rest : List (List Char))
    (h : startsWithL activeHeader (strip l) = true) :
    projGo false (l :: rest) = projGo true rest := by
  simp only [projGo]
  rw [if_pos h]

theorem projGo_task (l : List Char) (rest : List (List Char))
    (h1 : startsWithL activeHeader (strip l) = false)
    (h2 : startsWithL headingMark (strip l) = false)
    (h3 : startsWithL taskMark (strip l) = true) :
    projGo true (l :: rest) =
      ⟨strip ((strip l).drop 5), startsWithL checkedMark (strip l)⟩ :: projGo true rest := by
  simp only [projGo]
  rw [if_neg (by simp [h1]), if_neg (by simp [h2]), if_pos (by simp [h3])]

/-- Claim C10: in the `### Active` section of `PROJECT.md`, a task line
`- [X] <text>` with uppercase `X` is parsed with `checked = false` (the
code tests the exact prefix `- [x]`), unlike roadmap checkbox parsing,
where uppercase `X` maps to status completed. -/
theorem claim_c10_uppercase_unchecked (t : List Char)
    (h1 : hasChar '\n' t = false) (h2 : hasChar '\r' t = false) (h3 : t ≠ [])
    (h4 : pyIsSpace (t.headD 'a') = false)
    (h5 : pyIsSpace ((t.reverse).headD 'a') = false) :
    parse_project_content (joinNL [activeHeader, c10XMark ++ t]) = [⟨t, false⟩] ∧
      parse_checkbox_phase c10RoadLine = some c10RoadPhase := by
  constructor
  · unfold parse_project_content
    rw [splitlines_joinNL]
    · rw [projGo_active activeHeader [c10XMark ++ t] (by decide)]
      have hline2 : strip (c10XMark ++ t) = c10XMark ++ t := by
        apply strip_eq_self_of
        · rfl
        · rw [reverse_headD_append c10XMark h3]
          exact h5
      rw [projGo_task (c10XMark ++ t) [] (by rw [hline2]; rfl) (by rw [hline2]; rfl)
        (by rw [hline2]; rfl)]
      rw [hline2]
      have hdrop : (c10XMark ++ t).drop 5 = ' ' :: t := rfl
      have hchk : startsWithL checkedMark (c10XMark ++ t) = false := rfl
      rw [hdrop, hchk]
      have hst : strip (' ' :: t) = t := by
        have hls : lstrip (' ' :: t) = t := by
          cases t with
          | nil => exact absurd rfl h3
          | cons a t' =>
            simp [lstrip, List.dropWhile_cons, show pyIsSpace ' ' = true from rfl,
              head_not_space h4 a rfl]
        rw [strip, hls]
        exact rstrip_eq_self (head_not_space h5)
      rw [hst]
      simp [projGo]
    · intro l hl
      rcases List.mem_cons.mp hl with rfl | hl
      · exact ⟨by decide, by decide, by decide⟩
      · rcases List.mem_cons.mp hl with rfl | hl
        · refine ⟨?_, ?_, ?_⟩
          · intro e
            rw [show c10XMark ++ t = '-' :: (' ' :: '[' :: 'X' :: ']' :: ' ' :: t) from rfl] at e
            cases e
          · rw [hasChar_append]
            rw [show hasChar '\n' c10XMark = false from rfl, h1]
            rfl
          · rw [hasChar_append]
            rw [show hasChar '\r' c10XMark = false from rfl, h2]
            rfl
        · cases hl
  · decide

/-- Witness for C10 at the concrete task text `Fix login`. -/
theorem claim_c10_witness :
    parse_project_content (joinNL [activeHeader, c10XMark ++ c10T]) = [⟨c10T, false⟩] :=
  (claim_c10_uppercase_unchecked c10T (by decide) (by decide) (by decide) (by decide)
    (by decide)).1
